import Mathlib

/-!
Verification of the channel-reconciliation helpers of `antibodies-tsv-util`.

The Python sources are shallowly embedded: strings become `List Char`
(wrapped in `String` at the interfaces), pandas data frames become lists of
row structures, Python `dict`s become insertion-ordered association lists,
and code that can raise returns `Option`/`Except`.  Regular expressions are
specialized to the concrete patterns appearing in the source; the character
classes are modelled over ASCII, which covers every string the pipeline
manipulates.
-/

/-- Python `\s` on the ASCII range: the whitespace characters recognised by
`re` in the pattern `\s+antibody` of `get_analyte_name`. -/
def isPySpace (c : Char) : Bool :=
  c == ' ' || c == '\t' || c == '\n' || c == '\r' || c == '\x0b' || c == '\x0c'

/-- The literal pattern `Anti-` from `get_analyte_name`. -/
def antiPat : List Char := ['A', 'n', 't', 'i', '-']

/-- The literal `antibody` that follows `\s+` in `get_analyte_name`. -/
def antibodyPat : List Char := ['a', 'n', 't', 'i', 'b', 'o', 'd', 'y']

/-- The literal `</Image>` used by `add_structured_annotations`. -/
def imgTag : List Char := ['<', '/', 'I', 'm', 'a', 'g', 'e', '>']

/-- Boolean list-prefix test (structural, so that concrete instances reduce
in the kernel). -/
def isPrefixL : List Char → List Char → Bool
  | [], _ => true
  | _ :: _, [] => false
  | a :: as, b :: bs => a == b && isPrefixL as bs

/-- Does `pat` occur as a contiguous substring of `s`?  Checked at every
position, mirroring the scan of Python `re` for a literal pattern. -/
def containsSub (pat : List Char) : List Char → Bool
  | [] => pat.isEmpty
  | c :: rest => isPrefixL pat (c :: rest) || containsSub pat rest

/-- Index of the first occurrence of `pat` in `s`, as Python `str.find`
computes it for a nonempty needle (`none` plays the role of `-1`). -/
def findSub (pat : List Char) : List Char → Option Nat
  | [] => none
  | c :: rest =>
    if isPrefixL pat (c :: rest) then some 0
    else (findSub pat rest).map (· + 1)

/-- Number of positions of `s` at which `pat` occurs (for a nonempty `pat`
this is the number of occurrences of the substring). -/
def countSub (pat : List Char) : List Char → Nat
  | [] => 0
  | c :: rest => (if isPrefixL pat (c :: rest) then 1 else 0) + countSub pat rest

/-- Length of the maximal run of Python whitespace at the head of `s`. -/
def wsRunLen : List Char → Nat
  | [] => 0
  | c :: rest => if isPySpace c then wsRunLen rest + 1 else 0

/-- Does the regex `\s+antibody` match anywhere in `s`?  A match at a
position requires a whitespace character there whose maximal whitespace run
is immediately followed by the literal `antibody` (the greedy `\s+` cannot
stop earlier because `antibody` starts with a non-space character). -/
def hasWsAntibody : List Char → Bool
  | [] => false
  | c :: rest =>
    (isPySpace c && isPrefixL antibodyPat ((c :: rest).drop (wsRunLen (c :: rest))))
      || hasWsAntibody rest

/-- Holds (as `true`) when `s` is empty or its final character is not Python
whitespace. -/
def lastNotSpace (s : List Char) : Bool :=
  match s.getLast? with
  | none => true
  | some c => !isPySpace c

/-- One pass of `re.sub(pat, "", s)` for a literal pattern `pat`: every
non-overlapping occurrence is removed, scanning left to right.  `fuel` is
an upper bound on the number of steps; `fuel = s.length` always suffices. -/
def stripAllOccAux (pat : List Char) : Nat → List Char → List Char
  | 0, s => s
  | _ + 1, [] => []
  | fuel + 1, c :: rest =>
    if isPrefixL pat (c :: rest) && !pat.isEmpty then
      stripAllOccAux pat fuel ((c :: rest).drop pat.length)
    else
      c :: stripAllOccAux pat fuel rest

/-- Model of `re.sub(pat, "", s)` for a literal pattern. -/
def stripAllOcc (pat s : List Char) : List Char :=
  stripAllOccAux pat s.length s

/-- Model of `re.sub(r"\s+antibody", "", s)`: scan left to right; at a whitespace
character whose maximal whitespace run is followed by the literal
`antibody`, remove the run together with `antibody` and continue after it;
otherwise keep the character. -/
def stripWsAntibodyAux : Nat → List Char → List Char
  | 0, s => s
  | _ + 1, [] => []
  | fuel + 1, c :: rest =>
    if isPySpace c then
      let afterWs := (c :: rest).drop (wsRunLen (c :: rest))
      if isPrefixL antibodyPat afterWs then
        stripWsAntibodyAux fuel (afterWs.drop antibodyPat.length)
      else c :: stripWsAntibodyAux fuel rest
    else c :: stripWsAntibodyAux fuel rest

/-- Embeds `get_analyte_name` (identical in both source files):
`antb = re.sub(r"Anti-", "", antibody_name)` followed by
`antb = re.sub(r"\s+antibody", "", antb)`. -/
def get_analyte_name (antibody_name : String) : String :=
  let antb := stripAllOcc antiPat antibody_name.data
  ⟨stripWsAntibodyAux antb.length antb⟩

/-- Embeds `add_structured_annotations` of `src/antibodies_tsv_util.py`:
`sa_placement = xml_string.find("</Image>") + len("</Image>")`, then the
annotation string is spliced in at that offset.  Python `find` yields `-1`
when the tag is absent, so the placement is `7` in that case. -/
def add_structured_annotations (xml_string : String) (sa_str : String) : String :=
  let sa_placement : Nat :=
    match findSub imgTag xml_string.data with
    | some i => i + imgTag.length
    | none => imgTag.length - 1
  ⟨xml_string.data.take sa_placement ++ sa_str.data ++ xml_string.data.drop sa_placement⟩

/-- ASCII model of Python `str.lower()`. -/
def pyLower (s : String) : String :=
  ⟨s.data.map Char.toLower⟩

/-- One row of the enriched antibody table: the output of `sort_by_cycle`
(whose index pairs each row with its parsed cycle and channel numbers)
after `get_ch_info_from_antibodies_meta` has added the `target` column. -/
structure AntbRow where
  cycle : Nat
  channel : Nat
  channel_id : String
  antibody_name : String
  uniprot_accession_number : String
  rr_id : String
  target : String
deriving DecidableEq, Repr

/-- One raw row of `antibodies.tsv` as read by `pd.read_table` inside
`sort_by_cycle`, before any index or derived column is attached. -/
structure TsvRow where
  channel_id : String
  antibody_name : String
  uniprot_accession_number : String
  rr_id : String
deriving DecidableEq, Repr

/-- One row of the frame built by `create_original_channel_names_df`:
columns `Cycle`, `Channel`, `channel_name`, `channel_id`. -/
structure OgChRow where
  Cycle : Nat
  Channel : Nat
  channel_name : String
  channel_id : String
deriving DecidableEq, Repr

/-- Insertion into a Python `dict` modelled as an insertion-ordered
association list: an existing key keeps its position and gets the new
value, a new key is appended. -/
def dictInsert (m : List (String × String)) (k v : String) : List (String × String) :=
  if m.any (fun p => p.1 == k) then
    m.map (fun p => if p.1 == k then (k, v) else p)
  else m ++ [(k, v)]

/-- Embeds `map_cycles_and_channels` of
`src/antibodies_tsv_util/antibodies_tsv_util.py`: the dict comprehension
`\x7b channel_id.lower(): target ... \x7d` over the rows of the antibody
table, later entries overwriting earlier ones. -/
def map_cycles_and_channels (antibodies_df : List AntbRow) : List (String × String) :=
  antibodies_df.foldl (fun m r => dictInsert m (pyLower r.channel_id) r.target) []

/-- Embeds `replace_provider_ch_names_with_antb` of
`src/antibodies_tsv_util/antibodies_tsv_util.py`: for each row of the
original-channel-names frame, look up the lower-cased `channel_id` in the
mapping; on a hit take the target, on a miss keep `channel_name`. -/
def replace_provider_ch_names_with_antb (og_ch_names_df : List OgChRow)
    (antibodies_df : List AntbRow) : List String :=
  let mapping := map_cycles_and_channels antibodies_df
  og_ch_names_df.map (fun r =>
    match mapping.lookup (pyLower r.channel_id) with
    | some target => target
    | none => r.channel_name)

/-- Embeds `get_original_names`: same lookup as
`replace_provider_ch_names_with_antb`, but on a hit the original
`channel_name` is kept and on a miss the literal string `"None"` is
emitted. -/
def get_original_names (og_ch_names_df : List OgChRow)
    (antibodies_df : List AntbRow) : List String :=
  let mapping := map_cycles_and_channels antibodies_df
  og_ch_names_df.map (fun r =>
    match mapping.lookup (pyLower r.channel_id) with
    | some _ => r.channel_name
    | none => "None")

/-- Embeds `generate_sa_ch_info` of
`src/antibodies_tsv_util/antibodies_tsv_util.py` (the object-model
variant).  `antb_info.loc[(cycle, channel), :]` is the lookup of the row
whose index pair matches; a `KeyError` (no such row) and an absent table
both make the function return `None`.  The produced `Map` is modelled as
the ordered list of its six key/value pairs. -/
def generate_sa_ch_info (channel_id : String) (og_ch_names_info : OgChRow)
    (antb_info : Option (List AntbRow)) : Option (List (String × String)) :=
  match antb_info with
  | none => none
  | some rows =>
    match rows.find? (fun r =>
        r.cycle == og_ch_names_info.Cycle && r.channel == og_ch_names_info.Channel) with
    | none => none
    | some antb_row =>
      some [("Channel ID", channel_id),
            ("Name", antb_row.target),
            ("Original Name", og_ch_names_info.channel_name),
            ("UniprotID", antb_row.uniprot_accession_number),
            ("RRID", antb_row.rr_id),
            ("AntibodiesTsvID", antb_row.channel_id)]

/-- The `TypeError` raised inside the loop of
`generate_structured_annotations`: the call
`generate_sa_ch_info(ch_name, original_name, antb_info, channel_id)`
passes four positional arguments, while the definition of
`generate_sa_ch_info` has the three parameters
`(channel_id, og_ch_names_info, antb_info)`. -/
def sa_arity_type_error : String :=
  "TypeError: generate_sa_ch_info takes 3 positional arguments but 4 were given"

/-- Embeds `generate_structured_annotations` of
`src/antibodies_tsv_util/antibodies_tsv_util.py`, viewed as producing the
list of structured annotations it would attach to the XML document.
`get_original_names` is computed before the loop; every loop iteration
then performs the four-argument call to the three-parameter
`generate_sa_ch_info`, which in Python raises `TypeError` before any
annotation is appended, so for a nonempty channel list the function fails
with `sa_arity_type_error` and for an empty list the loop body never runs
and the annotation list stays empty. -/
def generate_structured_annotations (channel_ids : List String)
    (og_ch_names_df : List OgChRow) (antb_info : List AntbRow)
    (channelNames : List String) : Except String (List (List (String × String))) :=
  let _original_channel_names := get_original_names og_ch_names_df antb_info
  let _ := channel_ids
  match channelNames with
  | [] => Except.ok []
  | _ :: _ => Except.error sa_arity_type_error

/-- Model of `int(...)` on a nonempty string of ASCII digits. -/
def digitsToNat (ds : List Char) : Nat :=
  ds.foldl (fun n c => n * 10 + (c.toNat - '0'.toNat)) 0

/-- Lower-case a character list (for the `re.IGNORECASE` comparisons). -/
def lowerL (s : List Char) : List Char :=
  s.map Char.toLower

/-- The literal `cycle` of the pattern in `sort_by_cycle`. -/
def cyclePat : List Char := ['c', 'y', 'c', 'l', 'e']

/-- The literal `_ch` appearing in both channel-id patterns. -/
def chPat : List Char := ['_', 'c', 'h']

/-- The literal `cyc` of the pattern in `create_original_channel_names_df`. -/
def cycPat : List Char := ['c', 'y', 'c']

/-- The literal `_orig` of the pattern in `create_original_channel_names_df`. -/
def origPat : List Char := ['_', 'o', 'r', 'i', 'g']

/-- Attempt of the regex `cycle(\d+)_ch(\d+)` (with `re.IGNORECASE`) at
the start of `s`.  Both `\d+` groups are forced to their maximal digit
runs: backtracking to a shorter first group would place a digit where `_`
is required, and the second group is final and greedy. -/
def matchCycleChAt (s : List Char) : Option (Nat × Nat) :=
  if isPrefixL cyclePat (lowerL s) then
    let r1 := s.drop 5
    let d1 := r1.takeWhile Char.isDigit
    if d1.isEmpty then none
    else
      let r2 := r1.drop d1.length
      if isPrefixL chPat (lowerL r2) then
        let r3 := r2.drop 3
        let d2 := r3.takeWhile Char.isDigit
        if d2.isEmpty then none
        else some (digitsToNat d1, digitsToNat d2)
      else none
  else none

/-- Model of `re.search` for `cycle(\d+)_ch(\d+)` (case-insensitive): the match at
the leftmost position where one exists. -/
def searchCycleCh : List Char → Option (Nat × Nat)
  | [] => none
  | c :: rest =>
    match matchCycleChAt (c :: rest) with
    | some p => some p
    | none => searchCycleCh rest

/-- The (cycle, channel) sort key of a row of `antibodies.tsv`, as
`sort_by_cycle` computes it (only used on rows whose id matched). -/
def rowKey (r : TsvRow) : Nat × Nat :=
  (searchCycleCh r.channel_id.data).getD (0, 0)

/-- Ascending comparison on composite (cycle, channel) keys, as
`df.sort_index()` orders a two-level integer index. -/
def cycleChannelLe (a b : Nat × Nat) : Bool :=
  decide (a.1 < b.1) || (a.1 == b.1 && decide (a.2 ≤ b.2))

/-- Embeds `sort_by_cycle` (the file-reading step is the external
collaborator; the argument is the parsed table).  The source runs
`cycle_channel_pattern.search` on every `channel_id`; if any search
returns `None`, the following `s.group(...)` raises `AttributeError`
(modelled by `none`); otherwise the rows are indexed by their
(cycle, channel) pairs and sorted ascending by that composite key. -/
def sort_by_cycle (rows : List TsvRow) : Option (List TsvRow) :=
  let searches := rows.map (fun r => searchCycleCh r.channel_id.data)
  if searches.all Option.isSome then
    some (rows.mergeSort (fun a b => cycleChannelLe (rowKey a) (rowKey b)))
  else none

/-- Embeds `add_cycle_channel_numbers`: the loop carries `cycle_count`
(starting at 1) and `channel_count` (1 to 4); after each name the channel
counter is incremented and rolls over to the next cycle past 4. -/
def addCycleChannelAux : Nat → Nat → List String → List String
  | _, _, [] => []
  | cycle_count, channel_count, original_name :: rest =>
    ("cyc" ++ toString cycle_count ++ "_ch" ++ toString channel_count
        ++ "_orig" ++ original_name) ::
      (if channel_count + 1 > 4 then addCycleChannelAux (cycle_count + 1) 1 rest
       else addCycleChannelAux cycle_count (channel_count + 1) rest)

/-- Embeds `add_cycle_channel_numbers` of
`src/antibodies_tsv_util/antibodies_tsv_util.py`. -/
def add_cycle_channel_numbers (channel_names : List String) : List String :=
  addCycleChannelAux 1 1 channel_names

/-- Attempt of the regex `cyc(\d+)_ch(\d+)_orig(.*)` (case-sensitive) at
the start of `s`.  As in `matchCycleChAt` the digit groups are forced
maximal; `(.*)` greedily takes the rest of the string up to a newline. -/
def matchCycChOrigAt (s : List Char) : Option (Nat × Nat × List Char) :=
  if isPrefixL cycPat s then
    let r1 := s.drop 3
    let d1 := r1.takeWhile Char.isDigit
    if d1.isEmpty then none
    else
      let r2 := r1.drop d1.length
      if isPrefixL chPat r2 then
        let r3 := r2.drop 3
        let d2 := r3.takeWhile Char.isDigit
        if d2.isEmpty then none
        else
          let r4 := r3.drop d2.length
          if isPrefixL origPat r4 then
            some (digitsToNat d1, digitsToNat d2,
              (r4.drop 5).takeWhile (fun c => c != '\n'))
          else none
      else none
  else none

/-- Model of `re.search` semantics for `cyc(\d+)_ch(\d+)_orig(.*)`, as
`pandas.Series.str.extract` applies the pattern to each label. -/
def parseAcquiredLabel : List Char → Option (Nat × Nat × List Char)
  | [] => none
  | c :: rest =>
    match matchCycChOrigAt (c :: rest) with
    | some p => some p
    | none => parseAcquiredLabel rest

/-- Embeds `create_original_channel_names_df`.  The extract and
`pd.to_numeric` steps produce numeric `Cycle` and `Channel` columns; the
final statement `"cycle" + og_ch_names_df["Cycle"] + "_ch" + ...` then
adds a Python `str` to a numeric pandas column, which raises `TypeError`
for every nonempty frame, so the function only returns a frame when the
channel list is empty. -/
def create_original_channel_names_df (channelList : List String) :
    Except String (List OgChRow) :=
  let extracted := channelList.map (fun l => parseAcquiredLabel l.data)
  match extracted with
  | [] => Except.ok []
  | _ :: _ =>
    Except.error ("TypeError: can only concatenate str to a numeric column")

/-! ### Substring lemmas -/

theorem isPrefixL_self_append (p b : List Char) : isPrefixL p (p ++ b) = true := by
  induction p with
  | nil => rfl
  | cons a p ih => simp [isPrefixL, ih]

theorem countSub_cons (pat : List Char) (c : Char) (rest : List Char) :
    countSub pat (c :: rest) =
      (if isPrefixL pat (c :: rest) then 1 else 0) + countSub pat rest := rfl

theorem findSub_cons (pat : List Char) (c : Char) (rest : List Char) :
    findSub pat (c :: rest) =
      if isPrefixL pat (c :: rest) then some 0
      else (findSub pat rest).map (· + 1) := rfl

theorem findSub_eq_none_of_not_containsSub (pat : List Char) :
    ∀ s : List Char, containsSub pat s = false → findSub pat s = none := by
  intro s
  induction s with
  | nil => intro _; rfl
  | cons c rest ih =>
    intro h
    simp only [containsSub, Bool.or_eq_false_iff] at h
    simp [findSub, h.1, ih h.2]

theorem countSub_le_append (pat a z : List Char) :
    countSub pat z ≤ countSub pat (a ++ z) := by
  induction a with
  | nil => exact Nat.le_refl _
  | cons c a ih =>
    rw [List.cons_append, countSub_cons]
    exact Nat.le_trans ih (Nat.le_add_left _ _)

theorem one_le_countSub_self_append (pat b : List Char) (hp : pat ≠ []) :
    1 ≤ countSub pat (pat ++ b) := by
  match pat, hp with
  | c :: p, _ =>
    rw [List.cons_append, countSub_cons, ← List.cons_append, isPrefixL_self_append]
    simp

theorem findSub_of_unique_occurrence (pat : List Char) (hp : pat ≠ []) :
    ∀ (a b : List Char), countSub pat (a ++ pat ++ b) = 1 →
      findSub pat (a ++ pat ++ b) = some a.length := by
  intro a
  induction a with
  | nil =>
    intro b _
    rw [List.nil_append]
    match pat, hp with
    | c :: p, _ =>
      rw [List.cons_append, findSub_cons, ← List.cons_append, isPrefixL_self_append,
        if_pos rfl]
      rfl
  | cons c a ih =>
    intro b h
    rw [List.cons_append, List.cons_append] at h ⊢
    rw [countSub_cons] at h
    rw [findSub_cons]
    have hmono := countSub_le_append pat a (pat ++ b)
    have hself := one_le_countSub_self_append pat b hp
    rw [List.append_assoc] at h ⊢
    have hpre : isPrefixL pat (c :: (a ++ (pat ++ b))) = false := by
      cases hval : isPrefixL pat (c :: (a ++ (pat ++ b))) with
      | false => rfl
      | true => rw [hval, if_pos rfl] at h; omega
    rw [hpre] at h ⊢
    rw [if_neg (by simp)] at h
    rw [if_neg (by simp)]
    have h1 : countSub pat (a ++ (pat ++ b)) = 1 := by omega
    have hfind := ih b (by rw [List.append_assoc]; exact h1)
    rw [List.append_assoc] at hfind
    rw [hfind]
    rfl

/-- The six characters check for `</Image>` being a nonempty literal. -/
theorem imgTag_ne_nil : imgTag ≠ [] := by decide

/-- C3 counterexample: the claim says that when `</Image>` is absent the
function returns the document unchanged for every annotation string; on
the document `<Pixels/><Other/>` (which does not contain `</Image>`) the
code instead splices the annotation in at byte offset 7. -/
theorem add_structured_annotations_absent_tag_not_noop :
    containsSub imgTag ("<Pixels/><Other/>").data = false ∧
    add_structured_annotations ("<Pixels/><Other/>") ("X") = "<PixelsX/><Other/>" ∧
    ("<PixelsX/><Other/>" : String) ≠ "<Pixels/><Other/>" := by
  refine ⟨by decide, by decide, by decide⟩

/-- C3 (amended): when `</Image>` does not occur in the document,
`add_structured_annotations` inserts the annotation block at byte offset
`7` (Python `find` returns `-1`, and `-1 + len("</Image>") = 7`), so the
result is the first seven characters, the block, then the rest; the
document is returned unchanged only when the block is empty. -/
theorem add_structured_annotations_absent_tag_inserts_at_seven
    (xml_string sa_str : String)
    (h : containsSub imgTag xml_string.data = false) :
    add_structured_annotations xml_string sa_str =
      ⟨xml_string.data.take 7 ++ sa_str.data ++ xml_string.data.drop 7⟩ := by
  unfold add_structured_annotations
  rw [findSub_eq_none_of_not_containsSub imgTag xml_string.data h]
  rfl

/-- Witness for the amended C3 theorem at a concrete document. -/
theorem add_structured_annotations_absent_tag_witness :
    containsSub imgTag ("<A></A>").data = false ∧
    add_structured_annotations ("<A></A>") ("B") =
      ⟨("<A></A>").data.take 7 ++ ("B").data ++ ("<A></A>").data.drop 7⟩ :=
  ⟨by decide, add_structured_annotations_absent_tag_inserts_at_seven "<A></A>" "B" (by decide)⟩

/-- C4: on a document with exactly one occurrence of `</Image>`, the
annotation block is inserted immediately after that occurrence and all
surrounding text is preserved byte for byte. -/
theorem add_structured_annotations_single_tag_insertion
    (a b : List Char) (sa_str : String)
    (h : countSub imgTag (a ++ imgTag ++ b) = 1) :
    add_structured_annotations ⟨a ++ imgTag ++ b⟩ sa_str =
      ⟨a ++ imgTag ++ sa_str.data ++ b⟩ := by
  unfold add_structured_annotations
  rw [show (String.mk (a ++ imgTag ++ b)).data = a ++ imgTag ++ b from rfl]
  rw [findSub_of_unique_occurrence imgTag imgTag_ne_nil a b h]
  have hlen : (a ++ imgTag).length = a.length + imgTag.length := by
    simp [List.length_append]
  have htake : (a ++ imgTag ++ b).take (a.length + imgTag.length) = a ++ imgTag :=
    List.take_left' hlen
  have hdrop : (a ++ imgTag ++ b).drop (a.length + imgTag.length) = b :=
    List.drop_left' hlen
  show (⟨(a ++ imgTag ++ b).take (a.length + imgTag.length) ++ sa_str.data ++
      (a ++ imgTag ++ b).drop (a.length + imgTag.length)⟩ : String) = _
  rw [htake, hdrop]

/-- Witness for the C4 theorem at a concrete document with one tag. -/
theorem add_structured_annotations_single_tag_witness :
    countSub imgTag (("<x><Image>i").data ++ imgTag ++ ("<y/>").data) = 1 ∧
    add_structured_annotations ⟨("<x><Image>i").data ++ imgTag ++ ("<y/>").data⟩ ("SA") =
      ⟨("<x><Image>i").data ++ imgTag ++ ("SA").data ++ ("<y/>").data⟩ :=
  ⟨by decide,
   add_structured_annotations_single_tag_insertion ("<x><Image>i").data ("<y/>").data "SA"
     (by decide)⟩

/-! ### Lemmas about `get_analyte_name` -/

theorem isPrefixL_of_isPrefixL_append (p : List Char) (c : Char) (hc : c ∉ p) :
    ∀ (t u : List Char), u.head? = some c → isPrefixL p (t ++ u) = true →
      isPrefixL p t = true := by
  induction p with
  | nil => intro t u _ _; rfl
  | cons a p ih =>
    intro t u hu h
    cases t with
    | nil =>
      cases u with
      | nil => simp at hu
      | cons d u =>
        have hdc : d = c := by simpa [List.head?] using hu
        rw [List.nil_append] at h
        simp only [isPrefixL, Bool.and_eq_true, beq_iff_eq] at h
        obtain ⟨had, _⟩ := h
        subst hdc
        subst had
        exact absurd (List.mem_cons_self a p) hc
    | cons b t =>
      rw [List.cons_append] at h
      simp only [isPrefixL, Bool.and_eq_true] at h ⊢
      exact ⟨h.1, ih (fun hm => hc (List.mem_cons_of_mem a hm)) t u hu h.2⟩

theorem containsSub_append_absent (p u : List Char) (c : Char) (hc : c ∉ p)
    (hu : u.head? = some c) (h2 : containsSub p u = false) :
    ∀ s : List Char, containsSub p s = false → containsSub p (s ++ u) = false := by
  intro s
  induction s with
  | nil => intro _; rw [List.nil_append]; exact h2
  | cons d s ih =>
    intro h
    simp only [containsSub, Bool.or_eq_false_iff] at h
    rw [List.cons_append]
    simp only [containsSub, Bool.or_eq_false_iff]
    refine ⟨?_, ih h.2⟩
    cases hval : isPrefixL p (d :: (s ++ u)) with
    | false => rfl
    | true =>
      have hsp := isPrefixL_of_isPrefixL_append p c hc (d :: s) u hu
        (by rw [List.cons_append]; exact hval)
      rw [h.1] at hsp
      exact Bool.noConfusion hsp

theorem stripAllOccAux_nil (pat : List Char) (f : Nat) : stripAllOccAux pat f [] = [] := by
  cases f <;> rfl

theorem stripAllOccAux_cons (pat : List Char) (f : Nat) (c : Char) (rest : List Char) :
    stripAllOccAux pat (f + 1) (c :: rest) =
      if isPrefixL pat (c :: rest) && !pat.isEmpty then
        stripAllOccAux pat f ((c :: rest).drop pat.length)
      else c :: stripAllOccAux pat f rest := rfl

theorem stripAllOccAux_of_not_contains (pat : List Char) :
    ∀ (s : List Char) (f : Nat), containsSub pat s = false → s.length ≤ f →
      stripAllOccAux pat f s = s := by
  intro s
  induction s with
  | nil => intro f _ _; exact stripAllOccAux_nil pat f
  | cons c rest ih =>
    intro f h hf
    simp only [containsSub, Bool.or_eq_false_iff] at h
    cases f with
    | zero => rw [List.length_cons] at hf; exact absurd hf (by omega)
    | succ f =>
      rw [stripAllOccAux_cons, h.1, Bool.false_and, if_neg Bool.false_ne_true]
      rw [List.length_cons] at hf
      rw [ih f h.2 (by omega)]

theorem stripAllOccAux_fuel (pat : List Char) :
    ∀ (f g : Nat) (s : List Char), s.length ≤ f → s.length ≤ g →
      stripAllOccAux pat f s = stripAllOccAux pat g s := by
  intro f
  induction f with
  | zero =>
    intro g s hf _
    cases s with
    | nil => rw [stripAllOccAux_nil, stripAllOccAux_nil]
    | cons c rest => rw [List.length_cons] at hf; exact absurd hf (by omega)
  | succ f ih =>
    intro g s hf hg
    cases s with
    | nil => rw [stripAllOccAux_nil, stripAllOccAux_nil]
    | cons c rest =>
      cases g with
      | zero => rw [List.length_cons] at hg; exact absurd hg (by omega)
      | succ g =>
        rw [List.length_cons] at hf hg
        rw [stripAllOccAux_cons, stripAllOccAux_cons]
        cases hcond : (isPrefixL pat (c :: rest) && !pat.isEmpty) with
        | false =>
          rw [if_neg Bool.false_ne_true, if_neg Bool.false_ne_true]
          rw [ih g rest (by omega) (by omega)]
        | true =>
          rw [if_pos rfl, if_pos rfl]
          have hpat : 1 ≤ pat.length := by
            cases pat with
            | nil => simp [isPrefixL, List.isEmpty] at hcond
            | cons _ _ => simp [List.length_cons]
          have hlen : ((c :: rest).drop pat.length).length ≤ f := by
            rw [List.length_drop, List.length_cons]
            omega
          have hlen2 : ((c :: rest).drop pat.length).length ≤ g := by
            rw [List.length_drop, List.length_cons]
            omega
          exact ih g _ hlen hlen2

theorem stripAllOcc_no_occ (pat s : List Char) (h : containsSub pat s = false) :
    stripAllOcc pat s = s :=
  stripAllOccAux_of_not_contains pat s s.length h (Nat.le_refl _)

theorem stripAllOcc_self_append (pat z : List Char) (hp : pat ≠ []) :
    stripAllOcc pat (pat ++ z) = stripAllOcc pat z := by
  match pat, hp with
  | c :: p, _ =>
    have hcond : (isPrefixL (c :: p) (c :: (p ++ z)) && !(c :: p).isEmpty) = true := by
      rw [← List.cons_append, isPrefixL_self_append]
      rfl
    show stripAllOccAux (c :: p) ((c :: p) ++ z).length ((c :: p) ++ z) = _
    rw [List.cons_append, List.length_cons, stripAllOccAux_cons, if_pos hcond]
    rw [show ((c :: (p ++ z)).drop (c :: p).length) = (p ++ z).drop p.length from
      List.drop_succ_cons]
    rw [List.drop_left]
    exact stripAllOccAux_fuel (c :: p) (p ++ z).length z.length z
      (by rw [List.length_append]; omega) (Nat.le_refl _)

theorem stripAllOcc_anti (X : List Char) (h1 : containsSub antiPat X = false) :
    stripAllOcc antiPat (antiPat ++ (X ++ (' ' :: antibodyPat))) =
      X ++ (' ' :: antibodyPat) := by
  rw [stripAllOcc_self_append _ _ (by decide)]
  exact stripAllOcc_no_occ _ _
    (containsSub_append_absent antiPat (' ' :: antibodyPat) ' ' (by decide) rfl
      (by decide) X h1)

theorem stripWsAntibodyAux_nil (f : Nat) : stripWsAntibodyAux f [] = [] := by
  cases f <;> rfl

theorem stripWsAntibodyAux_cons (f : Nat) (c : Char) (rest : List Char) :
    stripWsAntibodyAux (f + 1) (c :: rest) =
      if isPySpace c then
        if isPrefixL antibodyPat ((c :: rest).drop (wsRunLen (c :: rest))) then
          stripWsAntibodyAux f (((c :: rest).drop (wsRunLen (c :: rest))).drop antibodyPat.length)
        else c :: stripWsAntibodyAux f rest
      else c :: stripWsAntibodyAux f rest := rfl

theorem wsRunLen_cons (c : Char) (rest : List Char) :
    wsRunLen (c :: rest) = if isPySpace c then wsRunLen rest + 1 else 0 := rfl

theorem wsRunLen_le_length (s : List Char) : wsRunLen s ≤ s.length := by
  induction s with
  | nil => exact Nat.le_refl _
  | cons c rest ih =>
    rw [wsRunLen_cons, List.length_cons]
    cases isPySpace c with
    | false => simp
    | true => simp; omega

theorem wsRunLen_append (x y : List Char) (h : x.all isPySpace = false) :
    wsRunLen (x ++ y) = wsRunLen x := by
  induction x with
  | nil => simp [List.all_nil] at h
  | cons c x ih =>
    rw [List.cons_append, wsRunLen_cons, wsRunLen_cons]
    cases hc : isPySpace c with
    | false => rfl
    | true =>
      have hx : x.all isPySpace = false := by
        simpa [List.all_cons, hc] using h
      rw [ih hx]

theorem all_isPySpace_false_of_lastNotSpace :
    ∀ (s : List Char), s ≠ [] → lastNotSpace s = true → s.all isPySpace = false := by
  intro s
  induction s with
  | nil => intro h; exact absurd rfl h
  | cons c rest ih =>
    intro _ hl
    cases rest with
    | nil =>
      have hc : isPySpace c = false := by
        simpa [lastNotSpace, List.getLast?_singleton] using hl
      simp [List.all_cons, hc]
    | cons d rest2 =>
      have hl2 : lastNotSpace (d :: rest2) = true := by
        simpa [lastNotSpace, List.getLast?_cons_cons] using hl
      have hrest := ih (List.cons_ne_nil _ _) hl2
      simp [List.all_cons, hrest]

theorem lastNotSpace_of_cons (c : Char) (s : List Char)
    (h : lastNotSpace (c :: s) = true) : lastNotSpace s = true := by
  cases s with
  | nil => rfl
  | cons d rest => simpa [lastNotSpace, List.getLast?_cons_cons] using h

theorem hasWsAntibody_cons (c : Char) (rest : List Char) :
    hasWsAntibody (c :: rest) =
      ((isPySpace c && isPrefixL antibodyPat ((c :: rest).drop (wsRunLen (c :: rest))))
        || hasWsAntibody rest) := rfl

theorem stripWsAntibodyAux_strips_suffix :
    ∀ (s : List Char) (f : Nat), (s ++ (' ' :: antibodyPat)).length ≤ f →
      hasWsAntibody s = false → lastNotSpace s = true →
      stripWsAntibodyAux f (s ++ (' ' :: antibodyPat)) = s := by
  intro s
  induction s with
  | nil =>
    intro f hf _ _
    rw [List.nil_append] at hf ⊢
    cases f with
    | zero => exact absurd hf (by decide)
    | succ f =>
      rw [stripWsAntibodyAux_cons, if_pos (by decide),
        if_pos (by decide :
          isPrefixL antibodyPat
            ((' ' :: antibodyPat).drop (wsRunLen (' ' :: antibodyPat))) = true)]
      exact stripWsAntibodyAux_nil f
  | cons c s ih =>
    intro f hf h2 h3
    rw [List.cons_append] at hf ⊢
    rw [hasWsAntibody_cons] at h2
    simp only [Bool.or_eq_false_iff] at h2
    obtain ⟨h2a, h2b⟩ := h2
    cases f with
    | zero => rw [List.length_cons] at hf; exact absurd hf (by omega)
    | succ f =>
      rw [List.length_cons] at hf
      rw [stripWsAntibodyAux_cons]
      cases hc : isPySpace c with
      | false =>
        rw [if_neg Bool.false_ne_true]
        rw [ih f (by omega) h2b (lastNotSpace_of_cons c s h3)]
      | true =>
        cases s with
        | nil =>
          rw [show lastNotSpace [c] = !isPySpace c from rfl, hc] at h3
          exact absurd h3 (by decide)
        | cons d s2 =>
          rw [if_pos rfl]
          have hall : (c :: d :: s2).all isPySpace = false :=
            all_isPySpace_false_of_lastNotSpace _ (List.cons_ne_nil _ _) h3
          have hrun : wsRunLen ((c :: d :: s2) ++ (' ' :: antibodyPat)) =
              wsRunLen (c :: d :: s2) :=
            wsRunLen_append _ _ hall
          have hd : (c :: ((d :: s2) ++ (' ' :: antibodyPat))) =
              (c :: d :: s2) ++ (' ' :: antibodyPat) := by
            simp
          rw [hd, hrun]
          have hle : wsRunLen (c :: d :: s2) ≤ (c :: d :: s2).length :=
            wsRunLen_le_length _
          have hdrop : ((c :: d :: s2) ++ (' ' :: antibodyPat)).drop
              (wsRunLen (c :: d :: s2)) =
              (c :: d :: s2).drop (wsRunLen (c :: d :: s2)) ++ (' ' :: antibodyPat) := by
            rw [List.drop_append_eq_append_drop, Nat.sub_eq_zero_of_le hle,
              List.drop_zero]
          rw [hdrop]
          have hpre : isPrefixL antibodyPat
              ((c :: d :: s2).drop (wsRunLen (c :: d :: s2)) ++ (' ' :: antibodyPat)) =
              false := by
            cases hval : isPrefixL antibodyPat
                ((c :: d :: s2).drop (wsRunLen (c :: d :: s2)) ++ (' ' :: antibodyPat)) with
            | false => rfl
            | true =>
              have hin := isPrefixL_of_isPrefixL_append antibodyPat ' ' (by decide)
                ((c :: d :: s2).drop (wsRunLen (c :: d :: s2))) (' ' :: antibodyPat)
                rfl hval
              rw [hc, hin] at h2a
              simp at h2a
          rw [if_neg (by rw [hpre]; exact Bool.false_ne_true)]
          rw [ih f (by omega) h2b (lastNotSpace_of_cons c _ h3)]

/-- C1 counterexample: `AAnti-B` starts with `AA`, so it has no leading
`Anti-` prefix, and it contains no whitespace-plus-`antibody` at all, yet
`get_analyte_name` changes it: `re.sub` removes the interior occurrence of
`Anti-`, so the claim that only a leading prefix and a trailing suffix are
stripped fails. -/
theorem get_analyte_name_strips_interior_occurrence :
    isPrefixL antiPat ("AAnti-B").data = false ∧
    hasWsAntibody ("AAnti-B").data = false ∧
    get_analyte_name ("AAnti-B") = "AB" ∧
    ("AB" : String) ≠ "AAnti-B" := by
  refine ⟨by decide, by decide, by decide, by decide⟩

/-- C1 (amended): `get_analyte_name` removes every occurrence of `Anti-`
and of whitespace-plus-`antibody`, not only a leading prefix and a
trailing suffix; consequently, for every name of the form
`Anti-X antibody` in which `X` itself contains no `Anti-`, contains no
whitespace run followed by `antibody`, and does not end in whitespace, the
function returns exactly `X`. -/
theorem get_analyte_name_global_sub (X : String)
    (h1 : containsSub antiPat X.data = false)
    (h2 : hasWsAntibody X.data = false)
    (h3 : lastNotSpace X.data = true) :
    get_analyte_name ⟨antiPat ++ X.data ++ (' ' :: antibodyPat)⟩ = X := by
  unfold get_analyte_name
  show (⟨stripWsAntibodyAux
      (stripAllOcc antiPat (String.mk (antiPat ++ X.data ++ (' ' :: antibodyPat))).data).length
      (stripAllOcc antiPat (String.mk (antiPat ++ X.data ++ (' ' :: antibodyPat))).data)⟩ : String) = X
  rw [show (String.mk (antiPat ++ X.data ++ (' ' :: antibodyPat))).data =
    antiPat ++ X.data ++ (' ' :: antibodyPat) from rfl]
  rw [List.append_assoc, stripAllOcc_anti X.data h1]
  rw [stripWsAntibodyAux_strips_suffix X.data _ (Nat.le_refl _) h2 h3]

/-- Witness for the amended C1 theorem at the name `Anti-CD3 antibody`. -/
theorem get_analyte_name_global_sub_witness :
    containsSub antiPat ("CD3").data = false ∧
    hasWsAntibody ("CD3").data = false ∧
    lastNotSpace ("CD3").data = true ∧
    get_analyte_name ⟨antiPat ++ ("CD3").data ++ (' ' :: antibodyPat)⟩ = "CD3" :=
  ⟨by decide, by decide, by decide,
   get_analyte_name_global_sub "CD3" (by decide) (by decide) (by decide)⟩

/-! ### Annotation emission (C2, C10) and channel-name frame (C7) -/

/-- C2 counterexample: for an acquired channel with no matching antibody
row (and likewise for an absent antibody table), `generate_sa_ch_info`
returns `None` — no six-key record with literal `"None"` values is
emitted; the record is omitted entirely. -/
theorem generate_sa_ch_info_unresolved_returns_none :
    generate_sa_ch_info ("Channel:0:0") ⟨1, 1, "DAPI", "cycle1_ch1"⟩
      (some [⟨2, 1, "cycle2_ch1", "Anti-CD4 antibody", "P01730", "AB_2", "CD4"⟩]) = none ∧
    generate_sa_ch_info ("Channel:0:0") ⟨1, 1, "DAPI", "cycle1_ch1"⟩ none = none :=
  ⟨rfl, rfl⟩

/-- C2 (amended): the object-model `generate_sa_ch_info` produces the
fixed six-key record (Channel ID, Name, Original Name, UniprotID, RRID,
AntibodiesTsvID) only when the channel resolves against a present
antibody table; for an absent table or an unresolved (cycle, channel)
pair it returns `None` and the record is omitted, rather than emitting
placeholder `"None"` values. -/
theorem generate_sa_ch_info_six_keys_only_when_resolved (channel_id : String)
    (og : OgChRow) (rows : List AntbRow) :
    generate_sa_ch_info channel_id og none = none ∧
    (∀ r, rows.find? (fun q => q.cycle == og.Cycle && q.channel == og.Channel) = some r →
      generate_sa_ch_info channel_id og (some rows) =
        some [("Channel ID", channel_id), ("Name", r.target),
              ("Original Name", og.channel_name),
              ("UniprotID", r.uniprot_accession_number), ("RRID", r.rr_id),
              ("AntibodiesTsvID", r.channel_id)]) ∧
    (rows.find? (fun q => q.cycle == og.Cycle && q.channel == og.Channel) = none →
      generate_sa_ch_info channel_id og (some rows) = none) := by
  refine ⟨rfl, ?_, ?_⟩
  · intro r h
    simp only [generate_sa_ch_info]
    rw [h]
  · intro h
    simp only [generate_sa_ch_info]
    rw [h]

/-- Witness for the amended C2 theorem on a resolved channel. -/
theorem generate_sa_ch_info_six_keys_witness :
    generate_sa_ch_info ("Channel:0:1") ⟨1, 2, "CD3-FITC", "cycle1_ch2"⟩
      (some [⟨1, 2, "cycle1_ch2", "Anti-CD3 antibody", "P04234", "AB_1234", "CD3"⟩]) =
      some [("Channel ID", "Channel:0:1"), ("Name", "CD3"), ("Original Name", "CD3-FITC"),
            ("UniprotID", "P04234"), ("RRID", "AB_1234"), ("AntibodiesTsvID", "cycle1_ch2")] :=
  (generate_sa_ch_info_six_keys_only_when_resolved ("Channel:0:1")
      ⟨1, 2, "CD3-FITC", "cycle1_ch2"⟩
      [⟨1, 2, "cycle1_ch2", "Anti-CD3 antibody", "P04234", "AB_1234", "CD3"⟩]).2.1
    ⟨1, 2, "cycle1_ch2", "Anti-CD3 antibody", "P04234", "AB_1234", "CD3"⟩ (by rfl)

/-- C10: for every nonempty channel-name list the annotation-building
pass fails with the arity `TypeError` (its loop body calls the
three-parameter `generate_sa_ch_info` with four positional arguments),
so no annotation is produced. -/
theorem generate_structured_annotations_arity_error (channel_ids : List String)
    (og_ch_names_df : List OgChRow) (antb_info : List AntbRow)
    (channelNames : List String) (h : channelNames ≠ []) :
    generate_structured_annotations channel_ids og_ch_names_df antb_info channelNames =
      Except.error sa_arity_type_error := by
  cases channelNames with
  | nil => exact absurd rfl h
  | cons c cs => rfl

/-- Witness for the C10 theorem on a one-channel input. -/
theorem generate_structured_annotations_arity_witness :
    generate_structured_annotations [("Channel:0:0")] [] [] [("DAPI")] =
      Except.error sa_arity_type_error :=
  generate_structured_annotations_arity_error [("Channel:0:0")] [] [] [("DAPI")]
    (by decide)

/-- C7: the acquired label `cyc1_ch1_origDAPI` parses exactly as the
claim describes (cycle 1, channel 1, name `DAPI`), but
`create_original_channel_names_df` never returns the described frame: the
final `"cycle" + Cycle + "_ch" + Channel` statement concatenates a string
with the numeric columns produced by `pd.to_numeric` and raises
`TypeError` on every nonempty input. -/
theorem create_original_channel_names_df_type_error :
    parseAcquiredLabel ("cyc1_ch1_origDAPI").data = some (1, 1, ("DAPI").data) ∧
    create_original_channel_names_df [("cyc1_ch1_origDAPI")] =
      Except.error ("TypeError: can only concatenate str to a numeric column") :=
  ⟨by decide, rfl⟩

/-! ### Dictionary lemmas for the channel index (C5, C6) -/

theorem lookup_cons_pair (key k1 v1 : String) (es : List (String × String)) :
    (((k1, v1) :: es).lookup key) = if key == k1 then some v1 else es.lookup key := by
  rw [List.lookup_cons]
  cases key == k1 <;> rfl

theorem lookup_map_update_ne (k v key : String) (hk : key ≠ k) :
    ∀ m : List (String × String),
      (m.map (fun p => if p.1 == k then (k, v) else p)).lookup key = m.lookup key := by
  intro m
  induction m with
  | nil => rfl
  | cons p m ih =>
    obtain ⟨k1, v1⟩ := p
    rw [List.map_cons]
    by_cases h1 : k1 = k
    · subst h1
      rw [if_pos (show ((k1, v1).1 == k1) = true from beq_self_eq_true k1)]
      rw [lookup_cons_pair, lookup_cons_pair,
        if_neg (show ¬(key == k1) = true by simp [hk]),
        if_neg (show ¬(key == k1) = true by simp [hk])]
      exact ih
    · rw [if_neg (show ¬((k1, v1).1 == k) = true by simp [h1])]
      rw [lookup_cons_pair, lookup_cons_pair]
      by_cases h2 : key = k1
      · rw [if_pos (by simp [h2]), if_pos (by simp [h2])]
      · rw [if_neg (by simp [h2]), if_neg (by simp [h2])]
        exact ih

theorem lookup_map_update_self (k v : String) :
    ∀ m : List (String × String), m.any (fun p => p.1 == k) = true →
      (m.map (fun p => if p.1 == k then (k, v) else p)).lookup k = some v := by
  intro m
  induction m with
  | nil => intro h; simp at h
  | cons p m ih =>
    intro h
    obtain ⟨k1, v1⟩ := p
    rw [List.map_cons]
    by_cases h1 : k1 = k
    · subst h1
      rw [if_pos (show ((k1, v1).1 == k1) = true from beq_self_eq_true k1)]
      rw [lookup_cons_pair, if_pos (beq_self_eq_true k1)]
    · rw [if_neg (show ¬((k1, v1).1 == k) = true by simp [h1])]
      rw [lookup_cons_pair, if_neg (by simp [Ne.symm h1])]
      refine ih ?_
      simp only [List.any_cons, Bool.or_eq_true, beq_iff_eq] at h
      rcases h with h | h
      · exact absurd h h1
      · exact h

theorem lookup_append_absent (k v : String) :
    ∀ m : List (String × String), m.any (fun p => p.1 == k) = false →
      ∀ key, (m ++ [(k, v)]).lookup key = if key == k then some v else m.lookup key := by
  intro m
  induction m with
  | nil =>
    intro _ key
    rw [List.nil_append, lookup_cons_pair]
  | cons p m ih =>
    intro h key
    obtain ⟨k1, v1⟩ := p
    simp only [List.any_cons, Bool.or_eq_false_iff, beq_eq_false_iff_ne] at h
    rw [List.cons_append, lookup_cons_pair, lookup_cons_pair]
    by_cases hk1 : key = k1
    · subst hk1
      rw [if_pos (beq_self_eq_true key), if_pos (beq_self_eq_true key),
        if_neg (show ¬(key == k) = true by simp [h.1])]
    · rw [if_neg (show ¬(key == k1) = true by simp [hk1]), ih h.2 key]
      by_cases hk : key = k
      · rw [if_pos (by simp [hk]), if_pos (by simp [hk])]
      · rw [if_neg (by simp [hk]), if_neg (by simp [hk]),
          if_neg (show ¬(key == k1) = true by simp [hk1])]

theorem lookup_dictInsert (m : List (String × String)) (k v key : String) :
    (dictInsert m k v).lookup key = if key == k then some v else m.lookup key := by
  unfold dictInsert
  cases hany : m.any (fun p => p.1 == k) with
  | true =>
    rw [if_pos rfl]
    by_cases hk : key = k
    · subst hk
      rw [if_pos (beq_self_eq_true key)]
      exact lookup_map_update_self key v m hany
    · rw [if_neg (by simp [hk])]
      exact lookup_map_update_ne k v key hk m
  | false =>
    rw [if_neg Bool.false_ne_true]
    exact lookup_append_absent k v m hany key

theorem lookup_map_cycles_fold (key : String) :
    ∀ (rows : List AntbRow) (m : List (String × String)),
      (rows.foldl (fun m r => dictInsert m (pyLower r.channel_id) r.target) m).lookup key =
        (match rows.reverse.find? (fun r => pyLower r.channel_id == key) with
         | some r => some r.target
         | none => m.lookup key) := by
  intro rows
  induction rows with
  | nil => intro m; rfl
  | cons r rows ih =>
    intro m
    rw [List.foldl_cons, ih, List.reverse_cons, List.find?_append]
    cases hfind : rows.reverse.find? (fun r => pyLower r.channel_id == key) with
    | some q => rfl
    | none =>
      rw [lookup_dictInsert]
      cases hp : (pyLower r.channel_id == key) with
      | true =>
        have hkey : (key == pyLower r.channel_id) = true := by
          simp only [beq_iff_eq] at hp ⊢
          exact hp.symm
        rw [if_pos hkey, Option.none_or,
          List.find?_cons_of_pos ([] : List AntbRow)
            (show (fun q => pyLower q.channel_id == key) r = true from hp)]
      | false =>
        have hkey : (key == pyLower r.channel_id) = false := by
          simp only [beq_eq_false_iff_ne] at hp ⊢
          exact fun he => hp he.symm
        rw [hkey, if_neg Bool.false_ne_true, Option.none_or,
          List.find?_cons_of_neg ([] : List AntbRow)
            (show ¬(fun q => pyLower q.channel_id == key) r = true by simp [hp])]
        rfl

theorem keys_dictInsert (m : List (String × String)) (k v : String) :
    (dictInsert m k v).map Prod.fst =
      if m.any (fun p => p.1 == k) then m.map Prod.fst else m.map Prod.fst ++ [k] := by
  unfold dictInsert
  cases hany : m.any (fun p => p.1 == k) with
  | true =>
    rw [if_pos rfl, if_pos rfl, List.map_map]
    refine List.map_congr_left ?_
    intro p _
    by_cases h : p.1 = k
    · simp [Function.comp, h]
    · simp [Function.comp, h]
  | false =>
    rw [if_neg Bool.false_ne_true, if_neg Bool.false_ne_true, List.map_append]
    rfl

theorem mem_keys_iff_any (m : List (String × String)) (k : String) :
    (k ∈ m.map Prod.fst) ↔ m.any (fun p => p.1 == k) = true := by
  rw [List.any_eq_true, List.mem_map]
  constructor
  · rintro ⟨p, hp, he⟩
    exact ⟨p, hp, by simp [he]⟩
  · rintro ⟨p, hp, he⟩
    exact ⟨p, hp, by simpa using he⟩

theorem keys_fold_spec :
    ∀ (rows : List AntbRow) (m : List (String × String)),
      (m.map Prod.fst).Nodup →
      ((rows.foldl (fun m r => dictInsert m (pyLower r.channel_id) r.target) m).map
          Prod.fst).Nodup ∧
        ∀ k, (k ∈ (rows.foldl (fun m r =>
            dictInsert m (pyLower r.channel_id) r.target) m).map Prod.fst ↔
          (k ∈ m.map Prod.fst ∨ ∃ r ∈ rows, pyLower r.channel_id = k)) := by
  intro rows
  induction rows with
  | nil =>
    intro m hm
    exact ⟨hm, by simp⟩
  | cons r rows ih =>
    intro m hm
    rw [List.foldl_cons]
    have hstep_keys := keys_dictInsert m (pyLower r.channel_id) r.target
    have hnodup : ((dictInsert m (pyLower r.channel_id) r.target).map Prod.fst).Nodup := by
      rw [hstep_keys]
      cases hany : m.any (fun p => p.1 == pyLower r.channel_id) with
      | true => rw [if_pos rfl]; exact hm
      | false =>
        rw [if_neg Bool.false_ne_true, List.nodup_append]
        refine ⟨hm, List.nodup_singleton _, ?_⟩
        intro a ha hb
        rw [List.mem_singleton] at hb
        subst hb
        rw [mem_keys_iff_any] at ha
        rw [ha] at hany
        exact Bool.noConfusion hany
    have hmem : ∀ k, k ∈ (dictInsert m (pyLower r.channel_id) r.target).map Prod.fst ↔
        (k ∈ m.map Prod.fst ∨ pyLower r.channel_id = k) := by
      intro k
      rw [hstep_keys]
      cases hany : m.any (fun p => p.1 == pyLower r.channel_id) with
      | true =>
        rw [if_pos rfl]
        constructor
        · exact fun h => Or.inl h
        · rintro (h | h)
          · exact h
          · subst h
            rw [mem_keys_iff_any]
            exact hany
      | false =>
        rw [if_neg Bool.false_ne_true, List.mem_append, List.mem_singleton]
        constructor
        · rintro (h | h)
          · exact Or.inl h
          · exact Or.inr h.symm
        · rintro (h | h)
          · exact Or.inl h
          · exact Or.inr h.symm
    obtain ⟨ihn, ihm⟩ := ih (dictInsert m (pyLower r.channel_id) r.target) hnodup
    refine ⟨ihn, ?_⟩
    intro k
    rw [ihm k, hmem k]
    constructor
    · rintro ((h | h) | h)
      · exact Or.inl h
      · exact Or.inr ⟨r, List.mem_cons_self r rows, h⟩
      · obtain ⟨q, hq, he⟩ := h
        exact Or.inr ⟨q, List.mem_cons_of_mem r hq, he⟩
    · rintro (h | ⟨q, hq, he⟩)
      · exact Or.inl (Or.inl h)
      · rw [List.mem_cons] at hq
        rcases hq with rfl | hq
        · exact Or.inl (Or.inr he)
        · exact Or.inr ⟨q, hq, he⟩

/-- Lookup characterization of the channel index: the value bound to a key
is the target of the last row in input order whose lower-cased channel_id
equals the key. -/
theorem lookup_map_cycles_and_channels (rows : List AntbRow) (key : String) :
    (map_cycles_and_channels rows).lookup key =
      match rows.reverse.find? (fun r => pyLower r.channel_id == key) with
      | some r => some r.target
      | none => none := by
  rw [show map_cycles_and_channels rows =
    rows.foldl (fun m r => dictInsert m (pyLower r.channel_id) r.target) [] from rfl]
  rw [lookup_map_cycles_fold key rows []]
  cases rows.reverse.find? (fun r => pyLower r.channel_id == key) <;> rfl

/-- C5: `map_cycles_and_channels` builds a mapping with exactly one entry
per distinct lower-cased channel_id (its keys have no duplicates and are
exactly the lower-cased ids of the input rows), and the value bound to a
key is the target of the last record in input order with that lower-cased
channel_id (last-write-wins on duplicates). -/
theorem map_cycles_and_channels_last_write_wins (rows : List AntbRow) :
    ((map_cycles_and_channels rows).map Prod.fst).Nodup ∧
    (∀ k : String, k ∈ (map_cycles_and_channels rows).map Prod.fst ↔
      ∃ r ∈ rows, pyLower r.channel_id = k) ∧
    (∀ key : String, (map_cycles_and_channels rows).lookup key =
      match rows.reverse.find? (fun r => pyLower r.channel_id == key) with
      | some r => some r.target
      | none => none) := by
  obtain ⟨h1, h2⟩ := keys_fold_spec rows [] (by simp)
  refine ⟨h1, ?_, fun key => lookup_map_cycles_and_channels rows key⟩
  intro k
  exact (h2 k).trans (by simp)

/-- C6: `replace_provider_ch_names_with_antb` resolves the i-th acquired
channel by looking up its lower-cased channel_id in the index built from
the antibody table: on a hit the final name is the matching (last such)
record's target, on a miss it is the channel's own channel_name. -/
theorem replace_provider_ch_names_with_antb_resolves (og_ch_names_df : List OgChRow)
    (antibodies_df : List AntbRow) :
    (replace_provider_ch_names_with_antb og_ch_names_df antibodies_df).length =
      og_ch_names_df.length ∧
    ∀ (i : Nat) (h : i < og_ch_names_df.length),
      (replace_provider_ch_names_with_antb og_ch_names_df antibodies_df).get? i =
        some (match antibodies_df.reverse.find? (fun r =>
            pyLower r.channel_id == pyLower (og_ch_names_df.get ⟨i, h⟩).channel_id) with
          | some r => r.target
          | none => (og_ch_names_df.get ⟨i, h⟩).channel_name) := by
  constructor
  · rw [show replace_provider_ch_names_with_antb og_ch_names_df antibodies_df =
      og_ch_names_df.map (fun r =>
        match (map_cycles_and_channels antibodies_df).lookup (pyLower r.channel_id) with
        | some target => target
        | none => r.channel_name) from rfl]
    rw [List.length_map]
  · intro i h
    rw [show replace_provider_ch_names_with_antb og_ch_names_df antibodies_df =
      og_ch_names_df.map (fun r =>
        match (map_cycles_and_channels antibodies_df).lookup (pyLower r.channel_id) with
        | some target => target
        | none => r.channel_name) from rfl]
    rw [List.get?_map, List.get?_eq_get h, Option.map_some']
    rw [lookup_map_cycles_and_channels antibodies_df
      (pyLower (og_ch_names_df.get ⟨i, h⟩).channel_id)]
    cases antibodies_df.reverse.find? (fun r =>
      pyLower r.channel_id == pyLower (og_ch_names_df.get ⟨i, h⟩).channel_id) <;> rfl

/-- Witness for the C6 theorem: the acquired channel id `CYCLE1_CH2`
(upper case) resolves against the later of two records sharing the
lower-cased id `cycle1_ch2`, yielding target `CD3`. -/
theorem replace_provider_ch_names_witness :
    (replace_provider_ch_names_with_antb [⟨1, 2, "CD3-FITC", "CYCLE1_CH2"⟩]
      [⟨1, 2, "cycle1_ch2", "Anti-OLD antibody", "u0", "r0", "OLD"⟩,
       ⟨1, 2, "Cycle1_Ch2", "Anti-CD3 antibody", "P04234", "AB_1234", "CD3"⟩]).get? 0 =
      some ("CD3") := by
  have h := (replace_provider_ch_names_with_antb_resolves
    [⟨1, 2, "CD3-FITC", "CYCLE1_CH2"⟩]
    [⟨1, 2, "cycle1_ch2", "Anti-OLD antibody", "u0", "r0", "OLD"⟩,
     ⟨1, 2, "Cycle1_Ch2", "Anti-CD3 antibody", "P04234", "AB_1234", "CD3"⟩]).2 0
    (by decide)
  rw [h]
  decide

/-! ### Cycle/channel numbering (C8) and table sorting (C9) -/

theorem addCycleChannelAux_cons (c ch : Nat) (nm : String) (rest : List String) :
    addCycleChannelAux c ch (nm :: rest) =
      ("cyc" ++ toString c ++ "_ch" ++ toString ch ++ "_orig" ++ nm) ::
        (if ch + 1 > 4 then addCycleChannelAux (c + 1) 1 rest
         else addCycleChannelAux c (ch + 1) rest) := rfl

theorem addCycleChannelAux_length :
    ∀ (names : List String) (c ch : Nat),
      (addCycleChannelAux c ch names).length = names.length := by
  intro names
  induction names with
  | nil => intro c ch; rfl
  | cons nm rest ih =>
    intro c ch
    rw [addCycleChannelAux_cons, List.length_cons, List.length_cons]
    split
    · rw [ih]
    · rw [ih]

theorem addCycleChannelAux_get? :
    ∀ (names : List String) (n i : Nat),
      (addCycleChannelAux (n / 4 + 1) (n % 4 + 1) names).get? i =
        (names.get? i).map (fun s =>
          "cyc" ++ toString ((n + i) / 4 + 1) ++ "_ch" ++ toString ((n + i) % 4 + 1)
            ++ "_orig" ++ s) := by
  intro names
  induction names with
  | nil => intro n i; cases i <;> rfl
  | cons nm rest ih =>
    intro n i
    rw [addCycleChannelAux_cons]
    cases i with
    | zero => rfl
    | succ i =>
      by_cases h3 : n % 4 = 3
      · rw [if_pos (by omega)]
        have e1 : (n + 1) / 4 + 1 = n / 4 + 1 + 1 := by omega
        have e2 : (n + 1) % 4 + 1 = 1 := by omega
        have hx := ih (n + 1) i
        rw [e1, e2] at hx
        have e3 : n + 1 + i = n + (i + 1) := by omega
        rw [e3] at hx
        exact hx
      · rw [if_neg (by omega)]
        have e1 : (n + 1) / 4 + 1 = n / 4 + 1 := by omega
        have e2 : (n + 1) % 4 + 1 = n % 4 + 1 + 1 := by omega
        have hx := ih (n + 1) i
        rw [e1, e2] at hx
        have e3 : n + 1 + i = n + (i + 1) := by omega
        rw [e3] at hx
        exact hx

/-- C8: `add_cycle_channel_numbers` keeps the length of the input list and
renames the i-th channel (i from 0) to
`cyc(i div 4 + 1)_ch(i mod 4 + 1)_orig` followed by the original name,
the fixed four-channels-per-cycle numbering; both numbers are 1-based and
hence always positive. -/
theorem add_cycle_channel_numbers_four_per_cycle (channel_names : List String) :
    (add_cycle_channel_numbers channel_names).length = channel_names.length ∧
    ∀ (i : Nat) (s : String), channel_names.get? i = some s →
      (add_cycle_channel_numbers channel_names).get? i =
        some ("cyc" ++ toString (i / 4 + 1) ++ "_ch" ++ toString (i % 4 + 1)
          ++ "_orig" ++ s) := by
  constructor
  · exact addCycleChannelAux_length channel_names 1 1
  · intro i s hs
    have h := addCycleChannelAux_get? channel_names 0 i
    rw [show (0 : Nat) + i = i from Nat.zero_add i] at h
    rw [show add_cycle_channel_numbers channel_names =
      addCycleChannelAux (0 / 4 + 1) (0 % 4 + 1) channel_names from rfl]
    rw [h, hs, Option.map_some']

/-- Witness for the C8 theorem: the fifth channel (index 4) starts the
second cycle as its first channel. -/
theorem add_cycle_channel_numbers_witness :
    (add_cycle_channel_numbers ["a", "b", "c", "d", "e"]).get? 4 =
      some ("cyc" ++ toString (4 / 4 + 1) ++ "_ch" ++ toString (4 % 4 + 1)
        ++ "_orig" ++ "e") ∧
    ("cyc" ++ toString (4 / 4 + 1) ++ "_ch" ++ toString (4 % 4 + 1)
        ++ "_orig" ++ ("e" : String)) = "cyc2_ch1_orige" :=
  ⟨(add_cycle_channel_numbers_four_per_cycle ["a", "b", "c", "d", "e"]).2 4 "e" rfl,
   by decide⟩

theorem cycleChannelLe_trans (a b c : Nat × Nat) :
    cycleChannelLe a b = true → cycleChannelLe b c = true → cycleChannelLe a c = true := by
  simp only [cycleChannelLe, Bool.or_eq_true, Bool.and_eq_true, decide_eq_true_eq,
    beq_iff_eq]
  omega

theorem cycleChannelLe_total (a b : Nat × Nat) :
    (cycleChannelLe a b || cycleChannelLe b a) = true := by
  simp only [cycleChannelLe, Bool.or_eq_true, Bool.and_eq_true, decide_eq_true_eq,
    beq_iff_eq]
  omega

/-- C9: `sort_by_cycle` parses every row's channel_id with the
case-insensitive `cycle(\d+)_ch(\d+)` pattern; when all rows match it
returns the same rows (a permutation) ordered ascending by the composite
(cycle, channel) key, and when some row does not match it fails instead of
returning a table. -/
theorem sort_by_cycle_sorts (rows : List TsvRow) :
    ((∀ r ∈ rows, (searchCycleCh r.channel_id.data).isSome = true) →
      ∃ out, sort_by_cycle rows = some out ∧ out.Perm rows ∧
        out.Pairwise (fun a b => cycleChannelLe (rowKey a) (rowKey b) = true)) ∧
    ((∃ r ∈ rows, searchCycleCh r.channel_id.data = none) →
      sort_by_cycle rows = none) := by
  constructor
  · intro h
    have hall : (rows.map (fun r => searchCycleCh r.channel_id.data)).all
        Option.isSome = true := by
      rw [List.all_eq_true]
      intro x hx
      rw [List.mem_map] at hx
      obtain ⟨r, hr, rfl⟩ := hx
      exact h r hr
    refine ⟨rows.mergeSort (fun a b => cycleChannelLe (rowKey a) (rowKey b)), ?_, ?_, ?_⟩
    · rw [show sort_by_cycle rows =
        (if (rows.map (fun r => searchCycleCh r.channel_id.data)).all Option.isSome then
          some (rows.mergeSort (fun a b => cycleChannelLe (rowKey a) (rowKey b)))
        else none) from rfl]
      rw [if_pos hall]
    · exact List.mergeSort_perm rows _
    · exact List.sorted_mergeSort
        (fun a b c => cycleChannelLe_trans (rowKey a) (rowKey b) (rowKey c))
        (fun a b => cycleChannelLe_total (rowKey a) (rowKey b)) rows
  · rintro ⟨r, hr, hnone⟩
    have hfail : ¬((rows.map (fun r => searchCycleCh r.channel_id.data)).all
        Option.isSome = true) := by
      rw [List.all_eq_true]
      intro hall
      have hmem := hall (searchCycleCh r.channel_id.data)
        (List.mem_map_of_mem (fun r => searchCycleCh r.channel_id.data) hr)
      rw [hnone] at hmem
      simp at hmem
    rw [show sort_by_cycle rows =
      (if (rows.map (fun r => searchCycleCh r.channel_id.data)).all Option.isSome then
        some (rows.mergeSort (fun a b => cycleChannelLe (rowKey a) (rowKey b)))
      else none) from rfl]
    rw [if_neg hfail]

/-- Witness for the C9 theorem: two parseable rows are returned sorted,
and a row whose id does not contain the pattern makes the function fail. -/
theorem sort_by_cycle_witness :
    (∃ out,
      sort_by_cycle [⟨"cycle2_ch1", "a", "u1", "r1"⟩, ⟨"CYCLE1_CH2", "b", "u2", "r2"⟩] =
        some out ∧
      out.Perm [⟨"cycle2_ch1", "a", "u1", "r1"⟩, ⟨"CYCLE1_CH2", "b", "u2", "r2"⟩] ∧
      out.Pairwise (fun a b => cycleChannelLe (rowKey a) (rowKey b) = true)) ∧
    sort_by_cycle [⟨"chan7", "c", "u3", "r3"⟩] = none :=
  ⟨(sort_by_cycle_sorts [⟨"cycle2_ch1", "a", "u1", "r1"⟩,
      ⟨"CYCLE1_CH2", "b", "u2", "r2"⟩]).1 (by decide),
   (sort_by_cycle_sorts [⟨"chan7", "c", "u3", "r3"⟩]).2
     ⟨⟨"chan7", "c", "u3", "r3"⟩, List.mem_singleton.mpr rfl, by decide⟩⟩

